import Mathlib

/-!
Verification of the learning-journey timeline component
(`src/components/ui/learning-journey.tsx`).

The component is pure UI logic: a mapper that deduplicates entries by
display date and places one tick per unique date proportionally along a
normalized 0–100 time axis, a navigator with hover state and a
click-to-scroll callback, and a renderer that emits one article per entry.
We embed the data model and every computation the component performs,
and prove the stated properties about them.

Modelling conventions:
* `rawDate` stores the millisecond timestamp that
  `new Date(entry.rawDate).getTime()` yields in the source, as an `Int`
  (the component only ever uses the parsed numeric time).
* JavaScript number arithmetic on these quantities is modelled in `ℚ`:
  the divisions involved are exact at the scale of the example inputs.
* The `Set<string>` used for deduplication is modelled as the list of
  dates seen so far, queried with `List.contains`.
-/

/-- Embedded `VideoBlock` record (`title`, `url`, optional `caption`). -/
structure VideoBlock where
  title : String
  url : String
  caption : Option String
  deriving Repr, DecidableEq

/-- The `kind` field of an entry: `"text" | "video"`. -/
inductive EntryKind where
  | text
  | video
  deriving Repr, DecidableEq

/-- Embedded `BlockEntry` record.  `date` is the display date string,
`rawDate` the parsed millisecond timestamp of the ISO string (see module
docstring), `content` the HTML body. -/
structure BlockEntry where
  id : String
  date : String
  rawDate : Int
  title : String
  kind : EntryKind
  content : String
  video : Option VideoBlock
  deriving Repr, DecidableEq

/-- The `entries.filter` loop inside the `uniqueDates` memo: `seen` is the
mutable `Set<string>` accumulated so far; an entry is kept exactly when its
`date` was not seen before, and its date is then added to `seen`. -/
def uniqueDatesAux (seen : List String) : List BlockEntry → List BlockEntry
  | [] => []
  | e :: rest =>
    if seen.contains e.date then uniqueDatesAux seen rest
    else e :: uniqueDatesAux (e.date :: seen) rest

/-- `uniqueDates`: the input entries filtered to the first occurrence of
each display date (source lines 35–42). -/
def uniqueDates (entries : List BlockEntry) : List BlockEntry :=
  uniqueDatesAux [] entries

/-- One tick's position: `range === 0 ? 0 : ((t - start) / range) * 100`
(source lines 52–55). -/
def tickPosition (start range t : ℚ) : ℚ :=
  if range = 0 then 0 else (t - start) / range * 100

/-- The `positions` memo applied to an already deduplicated list: empty
input yields `[]`; otherwise `start`/`end` are the timestamps of the first
and last element and each element is mapped through the position formula
(source lines 45–56). -/
def positionsOf : List BlockEntry → List ℚ
  | [] => []
  | first :: rest =>
    let start : ℚ := (first.rawDate : ℚ)
    let endTime : ℚ := (((first :: rest).getLast (List.cons_ne_nil first rest)).rawDate : ℚ)
    let range : ℚ := endTime - start
    (first :: rest).map (fun e => tickPosition start range (e.rawDate : ℚ))

/-- `positions` as computed by the component: the position list of
`uniqueDates entries`. -/
def positions (entries : List BlockEntry) : List ℚ :=
  positionsOf (uniqueDates entries)

/-- One rendered article of the content renderer (source lines 151–174):
its `id` attribute (the scroll anchor), the date label, title, raw HTML
body and optional video card. -/
structure Article where
  anchorId : String
  dateLabel : String
  articleTitle : String
  body : String
  video : Option VideoBlock
  deriving Repr, DecidableEq

/-- The renderer: `entries.map` producing one article per entry, in input
order, carrying the entry's own `id` as anchor. -/
def renderEntries (entries : List BlockEntry) : List Article :=
  entries.map (fun e => ⟨e.id, e.date, e.title, e.content, e.video⟩)

/-- The anchors present in the rendered document: the `id` of every
rendered article. -/
def domAnchors (entries : List BlockEntry) : List String :=
  (renderEntries entries).map Article.anchorId

/-- Hover events the navigator reacts to: `onMouseEnter` on tick `i`,
`onMouseLeave`. -/
inductive HoverEvent where
  | enter (i : Nat)
  | leave
  deriving Repr, DecidableEq

/-- `React.useState<number | null>(null)`: the initial hover state. -/
def initialHover : Option Nat := none

/-- The hover-state transition: `onMouseEnter={() => setHoveredIndex(index)}`
and `onMouseLeave={() => setHoveredIndex(null)}` (source lines 66–67). -/
def hoverStep (hovered : Option Nat) : HoverEvent → Option Nat
  | HoverEvent.enter i => some i
  | HoverEvent.leave => none

/-- Tooltip visibility for tick `i`: the class switch
`hoveredIndex === index` (source line 72). -/
def tooltipActive (hovered : Option Nat) (i : Nat) : Bool :=
  hovered == some i

/-- Clicking tick `i`: `onClick={() => onScrollTo(entry.id)}` for the
`i`-th element of `uniqueDates` (source line 82).  Returns the hover state
after the click (the handler does not touch it) and the list of ids passed
to the `onScrollTo` callback by this activation. -/
def clickTick (entries : List BlockEntry) (hovered : Option Nat) (i : Nat) :
    Option Nat × List String :=
  match (uniqueDates entries)[i]? with
  | some e => (hovered, [e.id])
  | none => (hovered, [])

/-- Observable effect of `handleScrollTo` (source lines 125–130). -/
inductive ScrollEffect where
  | smoothScrollTo (targetId : String)
  | noop
  deriving Repr, DecidableEq

/-- `handleScrollTo`: look the id up among the rendered anchors
(`document.getElementById`) and, if found and the scroll container ref is
set, smooth-scroll to it; otherwise do nothing.  Total — never throws. -/
def handleScrollTo (anchors : List String) (scrollRefSet : Bool) (targetId : String) :
    ScrollEffect :=
  if anchors.contains targetId && scrollRefSet then ScrollEffect.smoothScrollTo targetId
  else ScrollEffect.noop

/-- Modelled from the spec: the deduplication contract in its own words —
keep the first occurrence of each display date, drop every later
duplicate.  Used as the specification side of the refinement claim about
`uniqueDates`. -/
def firstOccurrences : List BlockEntry → List BlockEntry
  | [] => []
  | e :: rest => e :: firstOccurrences (rest.filter (fun x => x.date != e.date))
termination_by l => l.length
decreasing_by
  simp only [List.length_cons]
  exact Nat.lt_succ_of_le (List.length_filter_le _ _)

/-! ### Basic structural lemmas -/

lemma uniqueDatesAux_sublist (l : List BlockEntry) :
    ∀ seen, (uniqueDatesAux seen l).Sublist l := by
  induction l with
  | nil => intro seen; simp [uniqueDatesAux]
  | cons e rest ih =>
    intro seen
    by_cases h : seen.contains e.date
    · simp only [uniqueDatesAux, h, if_true]
      exact (ih seen).cons e
    · simp only [uniqueDatesAux, h, if_false]
      exact (ih (e.date :: seen)).cons₂ e

lemma uniqueDates_sublist (entries : List BlockEntry) :
    (uniqueDates entries).Sublist entries :=
  uniqueDatesAux_sublist entries []

lemma positionsOf_length (u : List BlockEntry) :
    (positionsOf u).length = u.length := by
  cases u with
  | nil => simp [positionsOf]
  | cons first rest => simp [positionsOf]

lemma uniqueDatesAux_eq_firstOccurrences (l : List BlockEntry) :
    ∀ seen, uniqueDatesAux seen l =
      firstOccurrences (l.filter (fun e => !seen.contains e.date)) := by
  induction l with
  | nil => intro seen; simp [uniqueDatesAux, firstOccurrences]
  | cons e rest ih =>
    intro seen
    cases hc : seen.contains e.date with
    | true =>
      simp only [uniqueDatesAux, List.filter_cons, hc, Bool.not_true, reduceIte]
      exact ih seen
    | false =>
      simp only [uniqueDatesAux, List.filter_cons, hc, Bool.not_false,
        Bool.false_eq_true, reduceIte]
      simp only [firstOccurrences]
      congr 1
      rw [ih (e.date :: seen), List.filter_filter]
      refine congrArg firstOccurrences (List.filter_congr ?_)
      intro x _
      by_cases hd : x.date = e.date <;>
        simp [List.contains_cons, Bool.not_or, Bool.and_comm, hd, bne]

lemma uniqueDates_eq_firstOccurrences (entries : List BlockEntry) :
    uniqueDates entries = firstOccurrences entries := by
  have h := uniqueDatesAux_eq_firstOccurrences entries []
  simpa [uniqueDates] using h

/-! ### Concrete example entries used by claims and witnesses -/

/-- First entry with display date "A". -/
def entryA1 : BlockEntry := ⟨"e1", "A", 0, "t1", EntryKind.text, "", none⟩

/-- Entry with display date "B". -/
def entryB : BlockEntry := ⟨"e2", "B", 1, "t2", EntryKind.text, "", none⟩

/-- Second (duplicate-date) entry with display date "A". -/
def entryA2 : BlockEntry := ⟨"e3", "A", 2, "t3", EntryKind.text, "", none⟩

/-- Entry with display date "C". -/
def entryC : BlockEntry := ⟨"e4", "C", 3, "t4", EntryKind.text, "", none⟩

/-- The spec's activation example entry, id "e7". -/
def entryE7 : BlockEntry := ⟨"e7", "D", 4, "t7", EntryKind.text, "", none⟩

/-! ### Claims -/

/-- Claim C2: `uniqueDates` keeps exactly the first occurrence of each
display date, in input order (proved equal to the spec-worded
`firstOccurrences`), and on dates [A, B, A, C] it yields [A, B, C]. -/
theorem uniqueDates_first_occurrence_wins :
    (∀ entries : List BlockEntry, uniqueDates entries = firstOccurrences entries) ∧
    uniqueDates [entryA1, entryB, entryA2, entryC] = [entryA1, entryB, entryC] := by
  constructor
  · intro entries
    have h := uniqueDatesAux_eq_firstOccurrences entries []
    simpa using h
  · decide

/-- Claim C5: the renderer emits exactly one article per input entry, in
input order, never deduplicating: the article list is the entrywise image
of the input, so counts match and anchors/date labels follow input order
(duplicates included). -/
theorem renderEntries_one_article_per_entry :
    ∀ entries : List BlockEntry,
      (renderEntries entries).length = entries.length ∧
      (renderEntries entries).map Article.anchorId = entries.map BlockEntry.id ∧
      (renderEntries entries).map Article.dateLabel = entries.map BlockEntry.date := by
  intro entries
  refine ⟨by simp [renderEntries], ?_, ?_⟩ <;>
    simp [renderEntries, List.map_map, Function.comp_def]

/-- Claim C7: the hover state starts as `none`; entering tick `i` sets it
to `some i` regardless of the previous state (last-entered wins), leaving
resets it to `none`, tooltip visibility is exactly the predicate
`hovered = some i`, and at most one tooltip is active at a time. -/
theorem hover_state_machine :
    initialHover = none ∧
    (∀ hovered i, hoverStep hovered (HoverEvent.enter i) = some i) ∧
    (∀ hovered, hoverStep hovered HoverEvent.leave = none) ∧
    (∀ hovered i, tooltipActive hovered i = true ↔ hovered = some i) ∧
    (∀ hovered i j, tooltipActive hovered i = true → tooltipActive hovered j = true →
      i = j) := by
  refine ⟨rfl, fun hovered i => rfl, fun hovered => rfl, ?_, ?_⟩
  · intro hovered i
    simp [tooltipActive]
  · intro hovered i j hi hj
    simp only [tooltipActive, beq_iff_eq] at hi hj
    rw [hi] at hj
    exact Option.some_inj.mp hj

/-- Witness for C7: run the machine at concrete inputs, discharging the
uniqueness hypotheses there. -/
theorem hover_state_machine_check :
    hoverStep (hoverStep initialHover (HoverEvent.enter 1)) (HoverEvent.enter 2) = some 2 ∧
    hoverStep (some 2) HoverEvent.leave = none ∧ (2 : Nat) = 2 :=
  ⟨hover_state_machine.2.1 (hoverStep initialHover (HoverEvent.enter 1)) 2,
   hover_state_machine.2.2.1 (some 2),
   hover_state_machine.2.2.2.2 (some 2) 2 2 (by decide) (by decide)⟩

/-- Claim C8: clicking the tick whose `uniqueDates` slot holds entry `e`
invokes the callback exactly once, with exactly `e.id`, and leaves the
hover state (and, `clickTick` being pure in `entries`, the computed ticks)
unchanged. -/
theorem clickTick_invokes_callback_once :
    ∀ (entries : List BlockEntry) (hovered : Option Nat) (i : Nat) (e : BlockEntry),
      (uniqueDates entries)[i]? = some e →
      clickTick entries hovered i = (hovered, [e.id]) := by
  intro entries hovered i e h
  simp [clickTick, h]

/-- Witness for C8: activating the tick for entry "e7" emits exactly one
`scrollToEntry "e7"` call and keeps the hover state. -/
theorem clickTick_invokes_callback_once_check :
    clickTick [entryA1, entryE7] (some 0) 1 = (some 0, ["e7"]) :=
  clickTick_invokes_callback_once [entryA1, entryE7] (some 0) 1 entryE7 (by decide)

/-- Claim C9: scrolling to an id that matches no rendered anchor is a
no-op (the effect is `noop`, no scroll command is issued; the model is a
total function, so no exception is possible). -/
theorem handleScrollTo_missing_anchor_noop :
    ∀ (entries : List BlockEntry) (scrollRefSet : Bool) (targetId : String),
      targetId ∉ domAnchors entries →
      handleScrollTo (domAnchors entries) scrollRefSet targetId = ScrollEffect.noop := by
  intro entries scrollRefSet targetId h
  have hc : (domAnchors entries).contains targetId = false := by
    simpa using h
  have hcond : ((domAnchors entries).contains targetId && scrollRefSet) = false := by
    rw [hc, Bool.false_and]
  unfold handleScrollTo
  rw [hcond]
  rfl

/-- Witness for C9: a stale id against a concrete one-entry document. -/
theorem handleScrollTo_missing_anchor_noop_check :
    handleScrollTo (domAnchors [entryA1]) true "stale" = ScrollEffect.noop :=
  handleScrollTo_missing_anchor_noop [entryA1] true "stale" (by decide)

/-- Claim C10: the position list always has exactly the length of
`uniqueDates`, so the lookup `positions[index]` made while rendering tick
`index` is defined for every rendered tick. -/
theorem positions_length_matches_ticks :
    ∀ entries : List BlockEntry,
      (positions entries).length = (uniqueDates entries).length ∧
      ∀ i, i < (uniqueDates entries).length → ((positions entries)[i]?).isSome = true := by
  intro entries
  have hlen : (positions entries).length = (uniqueDates entries).length :=
    positionsOf_length (uniqueDates entries)
  refine ⟨hlen, fun i hi => ?_⟩
  rw [List.getElem?_eq_getElem (hlen ▸ hi)]
  rfl

/-- Witness for C10: in-bounds lookup at a concrete two-tick input. -/
theorem positions_length_matches_ticks_check :
    (positions [entryA1, entryB]).length = (uniqueDates [entryA1, entryB]).length ∧
    ((positions [entryA1, entryB])[1]?).isSome = true :=
  ⟨(positions_length_matches_ticks [entryA1, entryB]).1,
   (positions_length_matches_ticks [entryA1, entryB]).2 1 (by decide)⟩

/-- Claim C1: with a non-empty `uniqueDates` whose first timestamp is
`start`, last is `endTime` and whose `i`-th timestamp is `t`, the `i`-th
position is `(t - start) / range * 100` for `range = endTime - start`,
and `0` for every tick when `range = 0` (an accepted degenerate case, not
an error). -/
theorem positions_formula :
    ∀ (entries : List BlockEntry) (start endTime t : ℚ) (i : Nat),
      ((uniqueDates entries).head?).map (fun e => (e.rawDate : ℚ)) = some start →
      ((uniqueDates entries).getLast?).map (fun e => (e.rawDate : ℚ)) = some endTime →
      (((uniqueDates entries)[i]?).map (fun e => (e.rawDate : ℚ))) = some t →
      (positions entries)[i]? =
        some (if endTime - start = 0 then 0 else (t - start) / (endTime - start) * 100) := by
  intro entries start endTime t i h1 h2 h3
  unfold positions
  cases hu : uniqueDates entries with
  | nil => rw [hu] at h1; simp at h1
  | cons first rest =>
    rw [hu] at h1 h2 h3
    simp only [List.head?_cons, Option.map_some'] at h1
    rw [List.getLast?_eq_getLast _ (List.cons_ne_nil first rest)] at h2
    simp only [Option.map_some'] at h2
    cases hg : (first :: rest)[i]? with
    | none => rw [hg] at h3; simp at h3
    | some e =>
      rw [hg] at h3
      simp only [Option.map_some'] at h3
      simp only [positionsOf]
      rw [List.getElem?_map, hg]
      simp only [Option.map_some', tickPosition]
      rw [Option.some_inj.mp h1, Option.some_inj.mp h2, Option.some_inj.mp h3]

/-- Witness for C1: the two-tick input with timestamps 0 and 1 ms has its
second tick at `(1 - 0) / (1 - 0) * 100`. -/
theorem positions_formula_check :
    (positions [entryA1, entryB])[1]? =
      some (if (1 : ℚ) - 0 = 0 then 0 else ((1 : ℚ) - 0) / ((1 : ℚ) - 0) * 100) :=
  positions_formula [entryA1, entryB] 0 1 1 1 (by decide) (by decide) (by decide)

lemma pairwise_head_le {first : BlockEntry} {rest : List BlockEntry}
    (hp : (first :: rest).Pairwise (fun a b => a.rawDate ≤ b.rawDate)) :
    ∀ x ∈ first :: rest, first.rawDate ≤ x.rawDate := by
  intro x hx
  rcases List.mem_cons.mp hx with h | h
  · rw [h]
  · exact (List.pairwise_cons.mp hp).1 x h

lemma pairwise_le_getLast :
    ∀ (u : List BlockEntry),
      u.Pairwise (fun a b => a.rawDate ≤ b.rawDate) →
      ∀ (hne : u ≠ []) x, x ∈ u → x.rawDate ≤ (u.getLast hne).rawDate := by
  intro u
  induction u with
  | nil => intro _ hne; exact absurd rfl hne
  | cons first rest ih =>
    intro hp hne x hx
    cases rest with
    | nil =>
      have hxf : x = first := by simpa using hx
      rw [hxf, List.getLast_singleton]
    | cons b t =>
      rw [List.getLast_cons (List.cons_ne_nil b t)]
      rcases List.mem_cons.mp hx with h | h
      · rw [h]
        exact (List.pairwise_cons.mp hp).1 _ (List.getLast_mem (List.cons_ne_nil b t))
      · exact ih (List.pairwise_cons.mp hp).2 (List.cons_ne_nil b t) x h

lemma tickPosition_bounds {start endTime t : ℚ}
    (h1 : start ≤ t) (h2 : t ≤ endTime) :
    0 ≤ tickPosition start (endTime - start) t ∧
      tickPosition start (endTime - start) t ≤ 100 := by
  unfold tickPosition
  by_cases hr : endTime - start = 0
  · simp [hr]
  · have hr0 : 0 ≤ endTime - start := sub_nonneg.mpr (h1.trans h2)
    have hrpos : 0 < endTime - start := lt_of_le_of_ne hr0 (Ne.symm hr)
    rw [if_neg hr]
    constructor
    · exact mul_nonneg (div_nonneg (sub_nonneg.mpr h1) hr0) (by norm_num)
    · have hle : (t - start) / (endTime - start) ≤ 1 :=
        (div_le_one hrpos).mpr (sub_le_sub_right h2 start)
      calc (t - start) / (endTime - start) * 100 ≤ 1 * 100 :=
            mul_le_mul_of_nonneg_right hle (by norm_num)
        _ = 100 := one_mul 100

/-- Claim C4: if the caller passes entries already sorted by timestamp
(non-decreasing `rawDate`, the stated precondition), every computed tick
position lies in the closed interval [0, 100]. -/
theorem positions_within_bounds :
    ∀ entries : List BlockEntry,
      entries.Pairwise (fun a b => a.rawDate ≤ b.rawDate) →
      ∀ p ∈ positions entries, 0 ≤ p ∧ p ≤ 100 := by
  intro entries hsorted p hp
  have hu : (uniqueDates entries).Pairwise (fun a b => a.rawDate ≤ b.rawDate) :=
    hsorted.sublist (uniqueDates_sublist entries)
  rw [positions] at hp
  cases hulist : uniqueDates entries with
  | nil => rw [hulist] at hp; simp [positionsOf] at hp
  | cons first rest =>
    rw [hulist] at hp hu
    simp only [positionsOf, List.mem_map] at hp
    obtain ⟨e, he, rfl⟩ := hp
    have hstart : (first.rawDate : ℚ) ≤ (e.rawDate : ℚ) :=
      Int.cast_le.mpr (pairwise_head_le hu e he)
    have hlast : (e.rawDate : ℚ) ≤
        ((((first :: rest).getLast (List.cons_ne_nil first rest)).rawDate : ℚ)) :=
      Int.cast_le.mpr
        (pairwise_le_getLast (first :: rest) hu (List.cons_ne_nil first rest) e he)
    exact tickPosition_bounds hstart hlast

/-- Witness for C4: a sorted two-entry input, checked at its last
position (which evaluates to 100). -/
theorem positions_within_bounds_check :
    (0 : ℚ) ≤ 100 ∧ (100 : ℚ) ≤ 100 := by
  have hmem : (100 : ℚ) ∈ positions [entryA1, entryB] := by
    have hu2 : uniqueDates [entryA1, entryB] = [entryA1, entryB] := by decide
    have hcomp : positions [entryA1, entryB] = [0, 100] := by
      rw [positions, hu2]
      norm_num [positionsOf, tickPosition, entryA1, entryB, List.getLast]
    rw [hcomp]
    simp
  exact positions_within_bounds [entryA1, entryB] (by decide) 100 hmem

lemma tickPosition_at_start (start range : ℚ) :
    tickPosition start range start = 0 := by
  unfold tickPosition
  by_cases hr : range = 0 <;> simp [hr]

lemma tickPosition_at_end (start endTime : ℚ) (h : endTime - start ≠ 0) :
    tickPosition start (endTime - start) endTime = 100 := by
  unfold tickPosition
  rw [if_neg h, div_self h, one_mul]

/-- Entry with display date "A" at timestamp 0 (for the degenerate-range
counterexample). -/
def entrySameT1 : BlockEntry := ⟨"s1", "A", 0, "t", EntryKind.text, "", none⟩

/-- Entry with display date "B" at the same timestamp 0. -/
def entrySameT2 : BlockEntry := ⟨"s2", "B", 0, "t", EntryKind.text, "", none⟩

/-- Counterexample to C3 as stated: two entries with distinct display
dates but one shared timestamp give `range = 0`, so the last tick sits at
position 0, not 100. -/
theorem last_position_not_hundred_counterexample :
    (uniqueDates [entrySameT1, entrySameT2]).map BlockEntry.date = ["A", "B"] ∧
    (positions [entrySameT1, entrySameT2]).getLast? = some 0 ∧
    (positions [entrySameT1, entrySameT2]).getLast? ≠ some 100 := by
  have hu : uniqueDates [entrySameT1, entrySameT2] = [entrySameT1, entrySameT2] := by
    decide
  have hp : positions [entrySameT1, entrySameT2] = [0, 0] := by
    rw [positions, hu]
    norm_num [positionsOf, tickPosition, entrySameT1, entrySameT2, List.getLast]
  refine ⟨by rw [hu]; rfl, by rw [hp]; rfl, ?_⟩
  rw [hp]
  intro hcontra
  have : (0 : ℚ) = 100 := Option.some_inj.mp hcontra
  norm_num at this

/-- Claim C3 (amended): when `uniqueDates` has at least two elements AND
the first and last tick timestamps differ (so `range ≠ 0` — with equal
boundary timestamps the degenerate range pins every tick, the last
included, to 0), the first tick's position is 0 and the last tick's
is 100. -/
theorem first_position_zero_last_hundred :
    ∀ (entries : List BlockEntry) (first lastEntry : BlockEntry),
      (uniqueDates entries).head? = some first →
      (uniqueDates entries).getLast? = some lastEntry →
      2 ≤ (uniqueDates entries).length →
      lastEntry.rawDate ≠ first.rawDate →
      (positions entries).head? = some 0 ∧
      (positions entries).getLast? = some 100 := by
  intro entries first lastEntry h1 h2 hlen hdiff
  rw [positions]
  cases hu : uniqueDates entries with
  | nil => rw [hu] at h1; simp at h1
  | cons f0 rest =>
    rw [hu] at h1 h2
    simp only [List.head?_cons, Option.some_inj] at h1
    rw [List.getLast?_eq_getLast _ (List.cons_ne_nil f0 rest), Option.some_inj] at h2
    have hrange : ((((f0 :: rest).getLast (List.cons_ne_nil f0 rest)).rawDate : ℚ)) -
        ((f0.rawDate : ℚ)) ≠ 0 := by
      rw [h2, h1]
      exact sub_ne_zero.mpr (fun hEq => hdiff (Int.cast_injective hEq))
    constructor
    · simp only [positionsOf]
      rw [List.head?_map]
      simp only [List.head?_cons, Option.map_some']
      exact congrArg some (tickPosition_at_start _ _)
    · simp only [positionsOf]
      rw [List.getLast?_map, List.getLast?_eq_getLast _ (List.cons_ne_nil f0 rest),
        Option.map_some']
      exact congrArg some (tickPosition_at_end _ _ hrange)

/-- Witness for the amended C3: timestamps 0 and 1 ms, two distinct
dates; the two ticks sit at 0 and 100. -/
theorem first_position_zero_last_hundred_check :
    (positions [entryA1, entryB]).head? = some 0 ∧
    (positions [entryA1, entryB]).getLast? = some 100 :=
  first_position_zero_last_hundred [entryA1, entryB] entryA1 entryB
    (by decide) (by decide) (by decide) (by decide)

/-- Example entry for 2024-01-01 (`new Date("2024-01-01").getTime()` =
1704067200000 ms). -/
def entryJan24a : BlockEntry :=
  ⟨"j1", "2024.01.01", 1704067200000, "t", EntryKind.text, "", none⟩

/-- Duplicate-date example entry, same day 2024-01-01. -/
def entryJan24b : BlockEntry :=
  ⟨"j2", "2024.01.01", 1704067200000, "t", EntryKind.text, "", none⟩

/-- Example entry for 2024-07-01 (1719792000000 ms). -/
def entryJul24 : BlockEntry :=
  ⟨"j3", "2024.07.01", 1719792000000, "t", EntryKind.text, "", none⟩

/-- Example entry for 2025-01-01 (1735689600000 ms). -/
def entryJan25 : BlockEntry :=
  ⟨"j4", "2025.01.01", 1735689600000, "t", EntryKind.text, "", none⟩

/-- The spec's worked example input list. -/
def exampleEntries : List BlockEntry :=
  [entryJan24a, entryJan24b, entryJul24, entryJan25]

lemma uniqueDates_exampleEntries :
    uniqueDates exampleEntries = [entryJan24a, entryJul24, entryJan25] := by
  decide

lemma positions_exampleEntries :
    positions exampleEntries = [0, 9100 / 183, 100] := by
  rw [positions, uniqueDates_exampleEntries]
  norm_num [positionsOf, tickPosition, entryJan24a, entryJul24, entryJan25, List.getLast]

/-- Counterexample to C6 as stated: on the example input the middle tick
sits at exactly 9100/183 ≈ 49.73, which is more than 0.1 away from the
claimed 49.6 (2024 is a leap year: 182 of 366 days elapse by July 1, so
the one-decimal value is 49.7, not 49.6). -/
theorem example_middle_position_counterexample :
    positions exampleEntries = [0, 9100 / 183, 100] ∧
    (1 / 10 : ℚ) < |9100 / 183 - 496 / 10| := by
  refine ⟨positions_exampleEntries, ?_⟩
  rw [abs_of_pos (by norm_num)]
  norm_num

/-- Claim C6 (amended): the example input has 3 unique dates with
positions exactly [0, 9100/183, 100], i.e. approximately [0, 49.7, 100]
(the middle tick within 0.03 of 49.7). -/
theorem example_positions :
    (uniqueDates exampleEntries).length = 3 ∧
    positions exampleEntries = [0, 9100 / 183, 100] ∧
    |9100 / 183 - (497 / 10 : ℚ)| < 3 / 100 := by
  refine ⟨by rw [uniqueDates_exampleEntries]; rfl, positions_exampleEntries, ?_⟩
  rw [abs_of_pos (by norm_num)]
  norm_num
